import Mathlib

/-!
Shallow embedding of the two scripts in this repository
(`scripts/asr_vosk.py` and `scripts/whisper_small.py`) and proofs about
the claims of the specification.

Both scripts share the same skeleton: an audio callback enqueues captured
frames into a Python `queue.Queue()`, and a consumer loop pops frames and
feeds them to a speech-recognition backend.  The backends (vosk's
incremental decoder, the whisper batch model) are external libraries; they
are modelled as oracles, with the reset-on-final behaviour of the streaming
decoder modelled from the specification.
-/

namespace AsrVosk

/-! ## Python queue.Queue

`queue.Queue(maxsize)` blocks a `put` when `0 < maxsize` and the queue
already holds `maxsize` items; with the default `maxsize = 0` (the value
both scripts use, `q = queue.Queue()` in asr_vosk.py line 17 and
`audio_queue = queue.Queue()` in whisper_small.py line 20) it is unbounded
and `put` never blocks.  The queue is FIFO: `put` appends at the tail,
`get` pops the head. -/

/-- Result of a `put` on a Python queue: either the element is appended at
the tail, or the producer would block because the queue is bounded and
full. -/
inductive PutResult (α : Type) where
  | enqueued (q : List α)
  | wouldBlock
  deriving DecidableEq, Repr

/-- `queue.Queue.put`: blocks iff the queue is bounded (`0 < maxsize`) and
already holds `maxsize` items; otherwise appends at the tail. -/
def queuePut (maxsize : Nat) (q : List α) (x : α) : PutResult α :=
  if 0 < maxsize ∧ maxsize ≤ q.length then .wouldBlock else .enqueued (q ++ [x])

/-- The `maxsize` both scripts construct their queues with:
`queue.Queue()` uses the default `maxsize = 0`, i.e. unbounded. -/
def scriptQueueMaxsize : Nat := 0

/-- Push a whole list of frames through `queuePut` with no intervening
pops; if a `put` would block, the producer is stuck and no further frame
enters the queue. -/
def pushAll (maxsize : Nat) (q : List α) : List α → List α
  | [] => q
  | f :: fs =>
    match queuePut maxsize q f with
    | .enqueued q2 => pushAll maxsize q2 fs
    | .wouldBlock => q

/-! ## The audio callbacks

asr_vosk.py lines 19-44 (`callback`) and whisper_small.py lines 22-46
(`audio_callback`): if the stream reports a status (a device condition
such as an overflow) the callback prints it, then it unconditionally
enqueues the captured frame and returns.  There is no failure path and no
stop signal: the callback's only effects are the optional log line and
the enqueue. -/

/-- `callback(indata, frames, time, status)` of asr_vosk.py: returns the
log lines written to stderr and the queue after the call.  `status = some
s` models a truthy `sounddevice.CallbackFlags` (a device condition). -/
def callback (status : Option String) (q : List α) (indata : α) :
    List String × List α :=
  ((match status with
    | some s => [s]
    | none => []),
   (match queuePut scriptQueueMaxsize q indata with
    | .enqueued q2 => q2
    | .wouldBlock => q))

/-- `audio_callback(indata, frames, time, status)` of whisper_small.py:
identical control flow (prints the status to stdout instead of stderr and
enqueues a copy of the frame). -/
def audio_callback (status : Option String) (q : List α) (indata : α) :
    List String × List α :=
  ((match status with
    | some s => [s]
    | none => []),
   (match queuePut scriptQueueMaxsize q indata with
    | .enqueued q2 => q2
    | .wouldBlock => q))

/-- Run a sequence of capture-callback invocations (status flag and frame
for each), accumulating the log and the queue, as the sounddevice stream
does while capturing. -/
def runCallbacks (logs : List String) (q : List α) :
    List (Option String × α) → List String × List α
  | [] => (logs, q)
  | (st, f) :: rest =>
    let r := callback st q f
    runCallbacks (logs ++ r.1) r.2 rest

/-! ## The streaming (vosk) recognition loop

asr_vosk.py lines 74-101.  Each iteration pops a frame and feeds it to the
incremental decoder: `rec.AcceptWaveform(data)` returns true when the
decoder detected an endpoint, in which case `rec.Result()` yields the
final text of the segment; otherwise `rec.PartialResult()` yields the
current partial hypothesis.  The decoder's response to each frame is
modelled as an oracle value `VoskResponse`. -/

/-- The incremental decoder's response to one frame: `accept t` models
`AcceptWaveform` returning true with `Result()['text'] = t` (endpoint
detected, segment final), `cont p` models `AcceptWaveform` returning
false with `PartialResult()['partial'] = p`. -/
inductive VoskResponse where
  | accept (text : String)
  | cont (partialText : String)
  deriving DecidableEq, Repr

/-- A recognition event, as in the specification's data model:
`Partial(text)` or `Final(text)`. -/
inductive RecEvent where
  | final (text : String)
  | partialEv (text : String)
  deriving DecidableEq, Repr

/-- Whether an event is a Final event. -/
def isFinal : RecEvent → Bool
  | .final _ => true
  | .partialEv _ => false

/-- Modelled from the spec: the streaming recognizer's internal state.
The scripts never manipulate this state themselves; per the specification
the decoder, after emitting a Final, resets for the next segment
(vosk's `Result()` resets the recognizer), so an `accept` leaves the
decoder `listening` and a `cont` leaves it mid-segment. -/
inductive RecState where
  | listening
  | inSegment
  deriving DecidableEq, Repr

/-- Python's `str.strip()`: the string with leading and trailing
whitespace removed. -/
def pyStrip (s : String) : String :=
  ⟨((s.data.dropWhile Char.isWhitespace).reverse.dropWhile Char.isWhitespace).reverse⟩

/-- The mutable state of the `main` loop of asr_vosk.py: the accumulated
transcript `full_text` plus the (spec-modelled) decoder state. -/
structure MState where
  full_text : String
  recSt : RecState
  deriving DecidableEq, Repr

/-- The initial loop state: `full_text = ""` (line 75), decoder listening. -/
def initMState : MState := ⟨"", .listening⟩

/-- One iteration of the loop body (lines 79-101) on one decoder
response.  Returns the new state, the recognition event of this
iteration, and the text displayed by the partial branch (`display_text =
full_text + " " + partial_text`, displayed only when the partial text is
non-empty; the final branch displays nothing).  On the final branch,
`full_text += " " + final_text.strip()` runs only when `final_text` is
truthy, i.e. non-empty. -/
def mainStep (s : MState) : VoskResponse → MState × RecEvent × Option String
  | .accept t =>
    (⟨if t = "" then s.full_text else s.full_text ++ " " ++ pyStrip t, .listening⟩,
     .final t, none)
  | .cont p =>
    (⟨s.full_text, .inSegment⟩, .partialEv p,
     if p = "" then none else some (s.full_text ++ " " ++ p))

/-- The loop state after consuming a whole list of decoder responses. -/
def runMain (s : MState) : List VoskResponse → MState
  | [] => s
  | r :: rs => runMain (mainStep s r).1 rs

/-- One recorded iteration of the loop: the response consumed, the event
emitted, the index of the segment the event belongs to (number of Final
events emitted strictly before it), the transcript before and after, the
displayed text (if any) and the decoder state after the iteration. -/
structure TraceEntry where
  resp : VoskResponse
  ev : RecEvent
  seg : Nat
  fullBefore : String
  fullAfter : String
  display : Option String
  stAfter : RecState
  deriving DecidableEq, Repr

/-- The full trace of the loop from state `s`, numbering segments from
`k`. -/
def runTrace (s : MState) (k : Nat) : List VoskResponse → List TraceEntry
  | [] => []
  | r :: rs =>
    let st := mainStep s r
    ⟨r, st.2.1, k, s.full_text, st.1.full_text, st.2.2, st.1.recSt⟩ ::
      runTrace st.1 (if isFinal st.2.1 then k + 1 else k) rs

/-- The trace of a whole run of `main` from its initial state. -/
def voskTrace (rs : List VoskResponse) : List TraceEntry :=
  runTrace initMState 0 rs

/-- The text the loop appends to `full_text` over a response list: one
`" " ++ pyStrip t` chunk per non-empty final text, in arrival order, and
nothing for partial responses or empty final texts. -/
def finalAppends : List VoskResponse → String
  | [] => ""
  | .accept t :: rs => (if t = "" then "" else " " ++ pyStrip t) ++ finalAppends rs
  | .cont _ :: rs => finalAppends rs

/-- Ordering of two trace entries by segment: the later entry is in the
same or a later segment, and strictly later whenever the earlier entry
ended its segment with a Final event. -/
def SegRel (a b : TraceEntry) : Prop :=
  a.seg ≤ b.seg ∧ (isFinal a.ev = true → a.seg < b.seg)

/-- A default trace entry (used only as the out-of-range value of
`List.getD`). -/
def dummyEntry : TraceEntry :=
  ⟨.cont "", .partialEv "", 0, "", "", none, .listening⟩

/-! ## The batch (whisper) transcription loop

whisper_small.py.  Capture parameters (lines 17-19): `sample_rate =
16000`, `block_size = 6` seconds, `block_samples = sample_rate *
block_size`; the input stream is opened with `blocksize=block_samples`
(line 85), so each frame the callback enqueues is exactly one batch
window of audio.  The transcription thread (`transcribe_audio`, lines
48-70) pops one element at a time: `None` is the stop sentinel (put by
`start_recording` on Ctrl+C, line 91) and breaks the loop; otherwise the
block is written to `temp.wav` and the whisper pipeline is invoked once
on it, and the recognized text is printed (the Final event).  There is no
try/except: an exception from the backend propagates and terminates the
thread.  No audio is retained across iterations (the popped block is a
local). -/

/-- One captured audio block: a buffer of samples.  With the stream's
`blocksize = block_samples` one block is one 6-second batch window. -/
abbrev Block := List Int

/-- `sample_rate = 16000` (whisper_small.py line 17). -/
def sample_rate : Nat := 16000

/-- `block_size = 6` seconds (line 18). -/
def block_size : Nat := 6

/-- `block_samples = int(sample_rate * block_size)` (line 19). -/
def block_samples : Nat := sample_rate * block_size

/-- A failure of the external recognition backend (an exception raised by
the whisper pipeline on a block). -/
inductive BackendErr where
  | backendFailure
  deriving DecidableEq, Repr

/-- How a run of the transcription loop ended: still blocked waiting on
an empty queue, stopped by the `None` sentinel, or killed by an
uncaught backend exception. -/
inductive LoopExit where
  | waiting
  | stopped
  | crashed (e : BackendErr)
  deriving DecidableEq, Repr

/-- Observable outcome of a run of the transcription loop: the events
emitted (in order), the number of backend invocations, the audio frames
still held by the recognizer afterwards, and how the loop ended. -/
structure RunResult where
  events : List RecEvent
  calls : Nat
  retained : List Block
  exit : LoopExit
  deriving DecidableEq, Repr

/-- `transcribe_audio` (lines 48-70) run over the sequence of queue
elements it will pop, with the whisper invocation on the temp-file
contents modelled by `oracle`.  Each popped block costs exactly one
backend call; on success one Final event (the printed text) is emitted
and the loop continues holding no audio; on an exception the loop dies
on the spot, the remaining queue elements never being popped. -/
def transcribe_audio (oracle : Block → Except BackendErr String) :
    List (Option Block) → RunResult
  | [] => ⟨[], 0, [], .waiting⟩
  | none :: _ => ⟨[], 0, [], .stopped⟩
  | some b :: rest =>
    match oracle b with
    | .ok t =>
      let r := transcribe_audio oracle rest
      ⟨.final t :: r.events, r.calls + 1, r.retained, r.exit⟩
    | .error e => ⟨[], 1, [], .crashed e⟩

/-- A backend oracle that recognizes every block as the text "hello". -/
def okOracle : Block → Except BackendErr String := fun _ => .ok "hello"

/-- A backend oracle that raises on every block. -/
def errOracle : Block → Except BackendErr String := fun _ => .error .backendFailure

/-- A backend oracle that raises exactly on the block `[9]` and
recognizes every other block as "ok". -/
def badOracle : Block → Except BackendErr String :=
  fun b => if b = [9] then .error .backendFailure else .ok "ok"

/-- A concrete audio block standing for one 6-second batch window (the
loop never inspects the samples). -/
def oneWindow : Block := [0, 1, 2, 3]

/-- A sample decoder response sequence: one partial hypothesis, then the
segment's final. -/
def respsPF : List VoskResponse := [VoskResponse.cont "a", VoskResponse.accept "b"]

/-- A sample decoder response sequence: a final, then a partial of the
next segment. -/
def respsFP : List VoskResponse := [VoskResponse.accept "hi", VoskResponse.cont "yo"]

/-! ## Helper lemmas -/

/-- A `put` on an unbounded queue always immediately appends at the
tail. -/
theorem queuePut_unbounded (q : List α) (x : α) :
    queuePut 0 q x = .enqueued (q ++ [x]) := by
  simp [queuePut]

/-- One loop iteration only ever extends `full_text` by a suffix. -/
theorem mainStep_append_only (s : MState) (r : VoskResponse) :
    ∃ u, ((mainStep s r).1).full_text = s.full_text ++ u := by
  cases r with
  | accept t =>
    by_cases ht : t = ""
    · exact ⟨"", by simp [mainStep, ht]⟩
    · exact ⟨" " ++ pyStrip t, by simp [mainStep, ht, String.append_assoc]⟩
  | cont p => exact ⟨"", by simp [mainStep]⟩

/-- Unfolding lemma for `runTrace` on a cons cell. -/
theorem runTrace_cons (s : MState) (k : Nat) (r : VoskResponse)
    (rs : List VoskResponse) :
    runTrace s k (r :: rs) =
      ⟨r, (mainStep s r).2.1, k, s.full_text, (mainStep s r).1.full_text,
        (mainStep s r).2.2, (mainStep s r).1.recSt⟩ ::
      runTrace (mainStep s r).1
        (if isFinal (mainStep s r).2.1 then k + 1 else k) rs := rfl

/-- Every entry of a trace numbered from `k` is in segment `k` or
later. -/
theorem runTrace_seg_ge (rs : List VoskResponse) :
    ∀ s k, ∀ e ∈ runTrace s k rs, k ≤ e.seg := by
  induction rs with
  | nil => intro s k e he; simp [runTrace] at he
  | cons r rs ih =>
    intro s k e he
    rw [runTrace_cons] at he
    rcases List.mem_cons.1 he with he | he
    · subst he; exact le_refl k
    · have h2 := ih (mainStep s r).1
        (if isFinal (mainStep s r).2.1 then k + 1 else k) e he
      split at h2 <;> omega

/-- Along any trace, segment indices never decrease, and strictly
increase past a Final event. -/
theorem runTrace_pairwise (rs : List VoskResponse) :
    ∀ s k, (runTrace s k rs).Pairwise SegRel := by
  induction rs with
  | nil => intro s k; simp [runTrace]
  | cons r rs ih =>
    intro s k
    rw [runTrace_cons]
    refine List.Pairwise.cons ?_ (ih _ _)
    intro b hb
    have hge := runTrace_seg_ge rs (mainStep s r).1
      (if isFinal (mainStep s r).2.1 then k + 1 else k) b hb
    constructor
    · show k ≤ b.seg
      have : k ≤ (if isFinal (mainStep s r).2.1 then k + 1 else k) := by
        split <;> omega
      exact le_trans this hge
    · intro hf
      show k < b.seg
      have h2 : k + 1 ≤ b.seg := by
        rw [if_pos hf] at hge
        exact hge
      omega

/-- After every Final event of a trace the decoder state is reset to
`listening`. -/
theorem runTrace_final_resets (rs : List VoskResponse) :
    ∀ s k, ∀ e ∈ runTrace s k rs,
      isFinal e.ev = true → e.stAfter = RecState.listening := by
  induction rs with
  | nil => intro s k e he; simp [runTrace] at he
  | cons r rs ih =>
    intro s k e he hf
    rw [runTrace_cons] at he
    rcases List.mem_cons.1 he with he | he
    · subst he
      cases r with
      | accept t => simp [mainStep]
      | cont p => simp [mainStep, isFinal] at hf
    · exact ih _ _ e he hf

/-- Over a whole run, `full_text` only ever grows by a suffix. -/
theorem runMain_append_only (rs : List VoskResponse) :
    ∀ s : MState, ∃ v, (runMain s rs).full_text = s.full_text ++ v := by
  induction rs with
  | nil => intro s; exact ⟨"", by simp [runMain]⟩
  | cons r rs ih =>
    intro s
    obtain ⟨u, hu⟩ := mainStep_append_only s r
    obtain ⟨v, hv⟩ := ih (mainStep s r).1
    refine ⟨u ++ v, ?_⟩
    rw [show runMain s (r :: rs) = runMain (mainStep s r).1 rs from rfl, hv, hu,
      String.append_assoc]

/-! ## Claim theorems -/

/-- C1: the queues the scripts actually build (`queue.Queue()`, i.e.
`maxsize = 0`, unbounded) do not implement the claimed bounded
drop-oldest policy.  Evaluation at the claim's failing input, with
claimed capacity C = 4: pushing the five frames 1..5 into an empty queue
with no intervening pops leaves all five frames in FIFO order — the queue
holds C + 1 frames and the oldest frame was not evicted — whereas the
claim demands that exactly the most recent four frames [2, 3, 4, 5]
remain. -/
theorem C1_code_queue_unbounded :
    pushAll scriptQueueMaxsize ([] : List Nat) [1, 2, 3, 4, 5] = [1, 2, 3, 4, 5] ∧
    (pushAll scriptQueueMaxsize ([] : List Nat) [1, 2, 3, 4, 5]).length = 4 + 1 ∧
    pushAll scriptQueueMaxsize ([] : List Nat) [1, 2, 3, 4, 5] ≠ [2, 3, 4, 5] := by
  refine ⟨by decide, by decide, by decide⟩

/-- C6: a device error reported to the capture callback does not stop the
pipeline and surfaces no DeviceError.  Evaluation at the failing input:
the callback is invoked with a truthy status ("input overflow") and frame
7, then again with no status and frame 8.  The code merely prints the
status and still enqueues frame 7, and capture continues — frame 8 is
captured and enqueued as well; the same holds for the whisper script's
`audio_callback`. -/
theorem C6_device_error_continues_capture :
    runCallbacks [] ([] : List Nat) [(some "input overflow", 7), (none, 8)] =
      (["input overflow"], [7, 8]) ∧
    audio_callback (some "input overflow") ([] : List Nat) 7 =
      (["input overflow"], [7]) := by
  refine ⟨by decide, by decide⟩

/-- C7: the capture callbacks never block.  For every state `q` of the
queue, a `put` on the scripts' queue (`maxsize = 0`) immediately
succeeds, appending exactly the one captured frame at the tail, and both
callbacks (asr_vosk.py `callback`, whisper_small.py `audio_callback`)
leave the queue equal to the old queue plus that single frame — a single
O(1) enqueue with no waiting on the consumer, whatever the queue
holds. -/
theorem C7_callback_nonblocking_single_enqueue {α : Type}
    (status : Option String) (q : List α) (f : α) :
    queuePut scriptQueueMaxsize q f = PutResult.enqueued (q ++ [f]) ∧
    (callback status q f).2 = q ++ [f] ∧
    (audio_callback status q f).2 = q ++ [f] := by
  refine ⟨queuePut_unbounded q f, ?_, ?_⟩ <;>
    simp [callback, audio_callback, scriptQueueMaxsize, queuePut]

/-- C9: a final recognition result whose text field is empty leaves the
accumulated transcript untouched: the `if final_text:` guard (asr_vosk.py
line 83) skips the append, so no text and no separator space is added,
for every loop state. -/
theorem C9_empty_final_text_no_append (s : MState) :
    ((mainStep s (VoskResponse.accept "")).1).full_text = s.full_text := by
  simp [mainStep]

/-- C10: the accumulated transcript is append-only.  Each iteration of
the loop leaves `full_text` equal to the old value extended with some
(possibly empty) suffix, and consequently so does every whole run:
committed text is never modified or removed. -/
theorem C10_full_text_append_only (s : MState) (r : VoskResponse) :
    (∃ u, ((mainStep s r).1).full_text = s.full_text ++ u) ∧
    ∀ rs : List VoskResponse, ∃ v, (runMain s rs).full_text = s.full_text ++ v := by
  constructor
  · cases r with
    | accept t =>
      by_cases ht : t = ""
      · exact ⟨"", by simp [mainStep, ht]⟩
      · exact ⟨" " ++ pyStrip t, by simp [mainStep, ht, String.append_assoc]⟩
    | cont p => exact ⟨"", by simp [mainStep]⟩
  · intro rs; exact runMain_append_only rs s

/-- Closed form of the transcript: a run extends `full_text` by exactly
one single-space-separated stripped chunk per non-empty final text, in
arrival order. -/
theorem runMain_full_text (rs : List VoskResponse) :
    ∀ s : MState, (runMain s rs).full_text = s.full_text ++ finalAppends rs := by
  induction rs with
  | nil => intro s; simp [runMain, finalAppends]
  | cons r rs ih =>
    intro s
    cases r with
    | accept t =>
      by_cases ht : t = ""
      · rw [show runMain s (VoskResponse.accept t :: rs) =
            runMain (mainStep s (VoskResponse.accept t)).1 rs from rfl,
          ih]
        simp [mainStep, finalAppends, ht]
      · rw [show runMain s (VoskResponse.accept t :: rs) =
            runMain (mainStep s (VoskResponse.accept t)).1 rs from rfl,
          ih]
        simp [mainStep, finalAppends, ht, String.append_assoc]
    | cont p =>
      rw [show runMain s (VoskResponse.cont p :: rs) =
          runMain (mainStep s (VoskResponse.cont p)).1 rs from rfl,
        ih]
      simp [mainStep, finalAppends]

/-- The transcript recorded before the i-th iteration of a trace is the
transcript produced by running the loop on the first i responses. -/
theorem runTrace_fullBefore (rs : List VoskResponse) :
    ∀ s k i, i < (runTrace s k rs).length →
      ((runTrace s k rs).getD i dummyEntry).fullBefore =
        (runMain s (rs.take i)).full_text := by
  induction rs with
  | nil => intro s k i h; simp [runTrace] at h
  | cons r rs ih =>
    intro s k i h
    cases i with
    | zero => rfl
    | succ j =>
      rw [runTrace_cons]
      simp only [List.getD_cons_succ]
      have h2 : j < (runTrace (mainStep s r).1
          (if isFinal (mainStep s r).2.1 then k + 1 else k) rs).length := by
        rw [runTrace_cons] at h
        simpa using h
      rw [ih _ _ j h2]
      rfl

/-- Every displayed text of a trace comes from a partial response and is
exactly the accumulated transcript at that point followed by a space and
the partial text. -/
theorem runTrace_display (rs : List VoskResponse) :
    ∀ s k, ∀ e ∈ runTrace s k rs, ∀ d, e.display = some d →
      ∃ p, e.resp = VoskResponse.cont p ∧ d = e.fullBefore ++ " " ++ p := by
  induction rs with
  | nil => intro s k e he; simp [runTrace] at he
  | cons r rs ih =>
    intro s k e he d hd
    rw [runTrace_cons] at he
    rcases List.mem_cons.1 he with he | he
    · subst he
      cases r with
      | accept t => simp [mainStep] at hd
      | cont p =>
        by_cases hp : p = ""
        · simp [mainStep, hp] at hd
        · refine ⟨p, rfl, ?_⟩
          simp only [mainStep, if_neg hp] at hd
          exact (Option.some.inj hd).symm
    · exact ih _ _ e he d hd

/-- C3 counterexample: the claim fails on a window whose recognition
fails.  Feeding exactly one batch window of audio on which the backend
raises triggers exactly one model invocation but emits zero Final events
(the exception propagates before the result is printed), refuting
"exactly one Final event ... regardless of whether recognition
succeeded". -/
theorem C3_counterexample_failing_window :
    (transcribe_audio errOracle [some oneWindow]).calls = 1 ∧
    ((transcribe_audio errOracle [some oneWindow]).events.filter isFinal).length ≠ 1 := by
  refine ⟨by decide, by decide⟩

/-- C3 (amended): feeding exactly one batch window of audio triggers
exactly one model invocation and never emits a Partial event, and no
audio is retained afterwards (the code keeps no accumulation buffer
between iterations) whether or not recognition succeeds; if the
invocation succeeds, exactly one Final event carrying the recognized
text is emitted; if it fails, no event is emitted and the exception
terminates the loop. -/
theorem C3_one_window_one_invocation
    (oracle : Block → Except BackendErr String) (b : Block) :
    (transcribe_audio oracle [some b]).calls = 1 ∧
    ((transcribe_audio oracle [some b]).events.filter fun e => !(isFinal e)) = [] ∧
    (transcribe_audio oracle [some b]).retained = [] ∧
    (∀ t, oracle b = Except.ok t →
      (transcribe_audio oracle [some b]).events = [RecEvent.final t]) ∧
    (∀ e, oracle b = Except.error e →
      (transcribe_audio oracle [some b]).events = [] ∧
      (transcribe_audio oracle [some b]).exit = LoopExit.crashed e) := by
  cases h : oracle b with
  | ok t =>
    refine ⟨?_, ?_, ?_, ?_, ?_⟩ <;>
      simp [transcribe_audio, h, isFinal]
  | error e =>
    refine ⟨?_, ?_, ?_, ?_, ?_⟩ <;>
      simp [transcribe_audio, h, isFinal]

/-- C3 witness: the amended theorem applied at concrete inputs — a
succeeding oracle yields exactly the one Final event, and a failing one
crashes the loop. -/
theorem C3_one_window_one_invocation_witness :
    (transcribe_audio okOracle [some oneWindow]).calls = 1 ∧
    (transcribe_audio okOracle [some oneWindow]).events = [RecEvent.final "hello"] ∧
    (transcribe_audio errOracle [some oneWindow]).exit =
      LoopExit.crashed BackendErr.backendFailure :=
  ⟨(C3_one_window_one_invocation okOracle oneWindow).1,
   (C3_one_window_one_invocation okOracle oneWindow).2.2.2.1 "hello" rfl,
   ((C3_one_window_one_invocation errOracle oneWindow).2.2.2.2
      BackendErr.backendFailure rfl).2⟩

/-- C4: a backend failure terminates the recognition loop instead of
being recovered from.  Evaluation of the code at the failing input: with
the queue holding blocks [1], [9], [2] and then the stop sentinel, and
the backend raising on [9], the thread crashes after two invocations;
the block [2] and the sentinel are never popped, no further frames are
consumed, and only the first block's Final event was ever emitted —
contradicting "discards the offending buffer, reports the error, and
continues consuming subsequent frames". -/
theorem C4_backend_failure_kills_loop :
    (transcribe_audio badOracle [some [1], some [9], some [2], none]).exit =
      LoopExit.crashed BackendErr.backendFailure ∧
    (transcribe_audio badOracle [some [1], some [9], some [2], none]).calls = 2 ∧
    (transcribe_audio badOracle [some [1], some [9], some [2], none]).events =
      [RecEvent.final "ok"] := by
  refine ⟨by decide, by decide, by decide⟩

/-- C5: the pipeline drains before stopping.  On Ctrl+C the controller
enqueues the `None` sentinel behind all captured frames
(whisper_small.py line 91); since the queue is FIFO, the transcription
loop pops and transcribes every frame that was enqueued before the stop
signal — one backend call and one emitted Final result per frame, in
order — before it reaches the sentinel and stops. -/
theorem C5_stop_drains_pending_frames
    (oracle : Block → Except BackendErr String) (bs : List Block)
    (h : ∀ b ∈ bs, ∃ t, oracle b = Except.ok t) :
    (transcribe_audio oracle (bs.map some ++ [none])).exit = LoopExit.stopped ∧
    (transcribe_audio oracle (bs.map some ++ [none])).calls = bs.length ∧
    (transcribe_audio oracle (bs.map some ++ [none])).events =
      bs.map fun b => RecEvent.final ((oracle b).toOption.getD "") := by
  induction bs with
  | nil => refine ⟨rfl, rfl, rfl⟩
  | cons b bs ih =>
    obtain ⟨t, ht⟩ := h b (List.mem_cons_self b bs)
    obtain ⟨h1, h2, h3⟩ := ih fun x hx => h x (List.mem_cons_of_mem b hx)
    refine ⟨?_, ?_, ?_⟩ <;>
      simp [transcribe_audio, ht, h1, h2, h3, Except.toOption]

/-- C5 witness: the drain theorem applied to a concrete two-frame queue
with a succeeding backend. -/
theorem C5_stop_drains_pending_frames_witness :
    (transcribe_audio okOracle ([[1], [2]].map some ++ [none])).exit =
      LoopExit.stopped ∧
    (transcribe_audio okOracle ([[1], [2]].map some ++ [none])).calls =
      [[1], [2]].length ∧
    (transcribe_audio okOracle ([[1], [2]].map some ++ [none])).events =
      [[1], [2]].map fun b => RecEvent.final ((okOracle b).toOption.getD "") :=
  C5_stop_drains_pending_frames okOracle [[1], [2]] fun _ _ => ⟨"hello", rfl⟩

/-- C2: for every sequence of frames fed to the streaming loop, the
emitted events form, per segment, a run of zero or more Partial events
closed by exactly one Final: after every Final event the decoder state
is reset to `listening` (so a Final is never followed by another Final
of the same segment without an intervening reset), and within any one
segment of the trace a Final event is always the last event — every
earlier event of the segment is a Partial. -/
theorem C2_streaming_partial_final_alternation (rs : List VoskResponse) :
    (∀ e ∈ voskTrace rs, isFinal e.ev = true → e.stAfter = RecState.listening) ∧
    ∀ i j : Fin (voskTrace rs).length, i < j →
      ((voskTrace rs).get i).seg = ((voskTrace rs).get j).seg →
      isFinal (((voskTrace rs).get i).ev) = false := by
  constructor
  · exact fun e he => runTrace_final_resets rs initMState 0 e he
  · intro i j hij hseg
    have hrel := List.pairwise_iff_get.1 (runTrace_pairwise rs initMState 0) i j hij
    cases h : isFinal (((voskTrace rs).get i).ev) with
    | false => rfl
    | true => exact absurd hseg (Nat.ne_of_lt (hrel.2 h))

/-- C2 witness: on the concrete response sequence `respsPF` (a partial,
then the final of the same segment), the Final event at index 1 leaves
the decoder reset to `listening`, and the event at index 0 — in the same
segment as the Final — is not itself a Final. -/
theorem C2_streaming_partial_final_alternation_witness :
    ((voskTrace respsPF).get ⟨1, by decide⟩).stAfter = RecState.listening ∧
    isFinal (((voskTrace respsPF).get ⟨0, by decide⟩).ev) = false :=
  ⟨(C2_streaming_partial_final_alternation respsPF).1 _
      (List.get_mem _ 1 (by decide)) (by decide),
   (C2_streaming_partial_final_alternation respsPF).2
      ⟨0, by decide⟩ ⟨1, by decide⟩ (by decide) (by decide)⟩

/-- C8: the sink sees events in arrival order.  The transcript after a
whole run is exactly the concatenation, in arrival order, of one chunk
`" " ++ strip(text)` per non-empty final text (each appended text
separated from the previous text by the single space the code inserts);
at every iteration the transcript seen so far equals that concatenation
over the responses already consumed; and every displayed text is exactly
the accumulated final transcript followed by a space and the current
partial text. -/
theorem C8_transcript_order_and_display (rs : List VoskResponse) :
    (runMain initMState rs).full_text = finalAppends rs ∧
    (∀ i, i < (voskTrace rs).length →
      ((voskTrace rs).getD i dummyEntry).fullBefore = finalAppends (rs.take i)) ∧
    (∀ e ∈ voskTrace rs, ∀ d, e.display = some d →
      ∃ p, e.resp = VoskResponse.cont p ∧ d = e.fullBefore ++ " " ++ p) := by
  refine ⟨?_, ?_, ?_⟩
  · simpa [initMState] using runMain_full_text rs initMState
  · intro i hi
    simp only [voskTrace] at hi ⊢
    rw [runTrace_fullBefore rs initMState 0 i hi,
      runMain_full_text (rs.take i) initMState]
    simp [initMState]
  · exact fun e he => runTrace_display rs initMState 0 e he

/-- C8 witness: on the concrete response sequence `respsFP` (the final
"hi", then the partial "yo"), the transcript before iteration 1 is
exactly the chunk contributed by the final "hi", and the text displayed
at iteration 1 is that transcript followed by a space and the partial
"yo". -/
theorem C8_transcript_order_and_display_witness :
    ((voskTrace respsFP).getD 1 dummyEntry).fullBefore =
      finalAppends (respsFP.take 1) ∧
    ∃ p, ((voskTrace respsFP).getD 1 dummyEntry).resp = VoskResponse.cont p ∧
      " hi yo" = ((voskTrace respsFP).getD 1 dummyEntry).fullBefore ++ " " ++ p :=
  ⟨(C8_transcript_order_and_display respsFP).2.1 1 (by decide),
   (C8_transcript_order_and_display respsFP).2.2 _ (by decide) " hi yo" (by decide)⟩

end AsrVosk
